import Mathlib

/-!
Verification development for the ChessVermouth engine-analysis service.

The definitions below are a shallow embedding of the TypeScript/JavaScript
sources:

* `Score`, `scoreToNumber`           — `dist/api/routes.js` (uci codec part)
* `parseBestMoveLine`, tokenization  — `dist/api/routes.js`
* `isMateDrop`, `classify`           — `dist/api/routes.js`
* `PoolState`, `acquire`, `release`,
  `poolSize`, `initSlots`,
  `runExclusiveChain`                — `enginePool.ts`
* `WorkerState`, `analyze`           — `engineWorker.ts`
* `addMove`, `startGame`             — `gameManager.ts`

Stateful methods become explicit state-passing functions; promise
resolution/rejection becomes `Except`; interactions with the engine
subprocess (readiness acknowledgements, search outcomes, abort signals)
become explicit parameters of the embedded functions.
-/

namespace ChessVermouth

/-- A UCI evaluation: centipawns or mate-in-N, sign relative to the mover.
Mirrors the `Score` type of `uci.ts`. -/
inductive Score where
  | cp (value : Int)
  | mate (value : Int)
deriving DecidableEq, Repr

/-- Embedding of `scoreToNumber` from `dist/api/routes.js`:
`null` for an absent score, a centipawn score maps to its value, a mate
score to `(value > 0 ? 1 : -1) * (100000 - |value| * 1000)`. -/
def scoreToNumber : Option Score → Option Int
  | none => none
  | some (.cp value) => some value
  | some (.mate value) =>
    let mateSign : Int := if value > 0 then 1 else -1
    let distance : Int := |value|
    some (mateSign * (100000 - distance * 1000))

/-- Move-quality labels returned by `classify`. -/
inductive Classification where
  | blunder
  | mistake
  | inaccuracy
  | good
deriving DecidableEq, Repr

/-- Embedding of `isMateDrop` from `dist/api/routes.js`. -/
def isMateDrop (before after : Score) : Bool :=
  match before with
  | .mate bv =>
    if bv > 0 then
      match after with
      | .cp _ => true
      | .mate av => decide (av > bv)
    else false
  | .cp _ => false

/-- Embedding of `classify` from `dist/api/routes.js`.  The `none` arms for
the normalized scores mirror the (unreachable) `=== null` checks in the
source. -/
def classify (before after : Option Score) : Classification :=
  match before, after with
  | none, _ => .good
  | _, none => .good
  | some b, some a =>
    if isMateDrop b a then .blunder
    else
      match scoreToNumber (some b), scoreToNumber (some a) with
      | none, _ => .good
      | _, none => .good
      | some beforeScore, some afterScore =>
        let drop := beforeScore - afterScore
        if drop ≥ 150 then .blunder
        else if drop ≥ 80 then .mistake
        else if drop ≥ 30 then .inaccuracy
        else .good

/-- The mate-thrown-away condition, written the way claim C2 words it:
`before` is a mate score with positive value and `after` is either not a
mate score or a mate score with strictly larger value. -/
def mateThrownAway (b a : Score) : Bool :=
  match b with
  | .cp _ => false
  | .mate bv =>
    decide (0 < bv) &&
      (match a with
       | .cp _ => true
       | .mate av => decide (bv < av))

/-- The §4.1 integer scale exactly as claim C2's words reference it: a
centipawn score maps to its own value, a mate score with value `m` to
`sign(m) * (100000 - 1000*|m|)`. -/
def signNormalized (s : Score) : Int :=
  match s with
  | .cp v => v
  | .mate m => Int.sign m * (100000 - 1000 * |m|)

/-- The classification function as claim C2 states it: `good` when either
score is absent; `blunder` on `mateThrownAway`; otherwise by the drop
`signNormalized(before) - signNormalized(after)` on the §4.1 `sign(m)`
scale, with the fixed thresholds, each band stated with both bounds. -/
def classifyClaim (before after : Option Score) : Classification :=
  match before, after with
  | none, _ => .good
  | _, none => .good
  | some b, some a =>
    if mateThrownAway b a then .blunder
    else
      let drop := signNormalized b - signNormalized a
      if 150 ≤ drop then .blunder
      else if 80 ≤ drop ∧ drop < 150 then .mistake
      else if 30 ≤ drop ∧ drop < 80 then .inaccuracy
      else .good

/-- The classification claim as amended: identical to `classifyClaim` except
that the normalization is the code's sign convention (`(1 if m > 0 else -1)
* (100000 - 1000*|m|)`, i.e. `scoreToNumber`), the only change the mate-0
counterexample forces. -/
def classifyClaimAmended (before after : Option Score) : Classification :=
  match before, after with
  | none, _ => .good
  | _, none => .good
  | some b, some a =>
    if mateThrownAway b a then .blunder
    else
      let drop := (scoreToNumber (some b)).getD 0 - (scoreToNumber (some a)).getD 0
      if 150 ≤ drop then .blunder
      else if 80 ≤ drop ∧ drop < 150 then .mistake
      else if 30 ≤ drop ∧ drop < 80 then .inaccuracy
      else .good

theorem isMateDrop_eq_mateThrownAway (b a : Score) :
    isMateDrop b a = mateThrownAway b a := by
  cases b with
  | cp v => rfl
  | mate bv =>
    cases a with
    | cp v => simp [isMateDrop, mateThrownAway]
    | mate av => simp [isMateDrop, mateThrownAway]

theorem scoreToNumber_isSome (s : Score) : ∃ n, scoreToNumber (some s) = some n := by
  cases s <;> exact ⟨_, rfl⟩

/-- Claim C2 counterexample: at `before = {cp, 0}`, `after = {mate, 0}` the
code's `classify` computes `drop = 0 - (-100000) = 100000` and returns
`blunder`, while the claim's §4.1 `sign(m)` normalization gives
`signNormalized (mate 0) = 0`, hence `drop = 0` and `good`. -/
theorem C2_counterexample :
    classify (some (.cp 0)) (some (.mate 0)) = .blunder ∧
    classifyClaim (some (.cp 0)) (some (.mate 0)) = .good := by
  exact ⟨by decide, by decide⟩

/-- Claim C2 (amended): `classify` returns `good` when either score is
absent; returns `blunder` when `before` is a positive mate score and `after`
is not a mate or a strictly longer mate; otherwise classifies by the drop on
the code's normalization scale (`(1 if m > 0 else -1) * (100000 - 1000*|m|)`
for a mate score) with the 150/80/30 thresholds.  In particular `{cp,40}` vs
`{cp,-120}` is a blunder, `{cp,40}` vs `{cp,-40}` a mistake, and `{mate,3}`
vs `{cp,10}` a blunder. -/
theorem C2_classification :
    (∀ before after, classify before after = classifyClaimAmended before after) ∧
    classify (some (.cp 40)) (some (.cp (-120))) = .blunder ∧
    classify (some (.cp 40)) (some (.cp (-40))) = .mistake ∧
    classify (some (.mate 3)) (some (.cp 10)) = .blunder := by
  refine ⟨?_, by decide, by decide, by decide⟩
  intro before after
  cases before with
  | none => cases after <;> rfl
  | some b =>
  cases after with
  | none => rfl
  | some a =>
    simp only [classify, classifyClaimAmended, isMateDrop_eq_mateThrownAway]
    obtain ⟨nb, hb⟩ := scoreToNumber_isSome b
    obtain ⟨na, ha⟩ := scoreToNumber_isSome a
    rw [hb, ha]
    simp only [Option.getD_some]
    split_ifs <;> first | rfl | omega

/-- Claim C5 counterexample: the claim's formula `sign(m) * (100000 - 1000*|m|)`
disagrees with `scoreToNumber` at `m = 0` (the code yields `-100000`, the
formula `0`), and the mate score `mate 90`, which favors the mover, normalizes
to `10000`, which is not strictly greater than the centipawn score `10000`. -/
theorem C5_counterexample :
    scoreToNumber (some (.mate 0)) ≠ some (Int.sign 0 * (100000 - 1000 * |(0 : Int)|)) ∧
    ¬ ((scoreToNumber (some (.cp 10000))).getD 0 < (scoreToNumber (some (.mate 90))).getD 0) := by
  decide

/-- Claim C5 (amended): a centipawn score normalizes to its own value; a mate
score with value `m` normalizes to `(if 0 < m then 1 else -1) * (100000 - 1000*|m|)`;
for mate distances `0 < d1 < d2` favoring the mover, `normalized(d1) > normalized(d2)`;
and every mate score favoring the mover with distance strictly less than 90
normalizes strictly greater than every centipawn score at most 10000. -/
theorem C5_normalization (v m d1 d2 d c : Int)
    (h1 : 0 < d1) (h12 : d1 < d2) (hd : 0 < d) (hd90 : d < 90) (hc : c ≤ 10000) :
    scoreToNumber (some (.cp v)) = some v ∧
    scoreToNumber (some (.mate m)) = some ((if 0 < m then (1 : Int) else -1) * (100000 - 1000 * |m|)) ∧
    (scoreToNumber (some (.mate d2))).getD 0 < (scoreToNumber (some (.mate d1))).getD 0 ∧
    (scoreToNumber (some (.cp c))).getD 0 < (scoreToNumber (some (.mate d))).getD 0 := by
  have hd2 : (0 : Int) < d2 := h1.trans h12
  refine ⟨rfl, ?_, ?_, ?_⟩
  · simp only [scoreToNumber, Option.some.injEq]
    split_ifs <;> ring
  · simp only [scoreToNumber, if_pos h1, if_pos hd2, abs_of_pos h1, abs_of_pos hd2,
      Option.getD_some]
    omega
  · simp only [scoreToNumber, if_pos hd, abs_of_pos hd, Option.getD_some]
    omega

theorem C5_normalization_witness :
    scoreToNumber (some (.cp 7)) = some 7 ∧
    (scoreToNumber (some (.mate 2))).getD 0 < (scoreToNumber (some (.mate 1))).getD 0 ∧
    (scoreToNumber (some (.cp 10000))).getD 0 < (scoreToNumber (some (.mate 3))).getD 0 := by
  obtain ⟨h1, h2, h3, h4⟩ :=
    C5_normalization 7 5 1 2 3 10000 (by norm_num) (by norm_num) (by norm_num)
      (by norm_num) (by norm_num)
  exact ⟨h1, h3, h4⟩

/-! ### Line tokenization (JS `line.trim().split(/\s+/g)`) -/

/-- Splits a character list on whitespace runs, accumulating the current
token in reverse.  Leading/trailing whitespace yields no empty tokens. -/
def splitWsAux : List Char → List Char → List String
  | [], acc => if acc.isEmpty then [] else [String.mk acc.reverse]
  | c :: rest, acc =>
    if c.isWhitespace then
      if acc.isEmpty then splitWsAux rest []
      else String.mk acc.reverse :: splitWsAux rest []
    else splitWsAux rest (c :: acc)

/-- JS `String.prototype.trim` on a character list. -/
def trimChars (s : List Char) : List Char :=
  ((s.dropWhile Char.isWhitespace).reverse.dropWhile Char.isWhitespace).reverse

/-- Embedding of JS `line.trim().split(/\s+/g)`: on a whitespace-only line JS
returns `[""]`; otherwise the whitespace-separated tokens with no empties. -/
def jsSplitWs (line : String) : List String :=
  if (trimChars line.data).isEmpty then [String.mk []]
  else splitWsAux (trimChars line.data) []

/-- Embedding of JS `line.startsWith(marker)`. -/
def startsWithStr (line marker : String) : Bool :=
  marker.data.isPrefixOf line.data

/-- Result of `parseBestMoveLine`: the chosen move and an optional ponder
move. -/
structure BestMove where
  bestmove : String
  ponder : Option String
deriving DecidableEq, Repr

/-- Embedding of `parseBestMoveLine` from `dist/api/routes.js`: `null` unless
the line starts with `bestmove`; `null` when token 1 is missing or empty
(the JS `!bestmove` falsy check); otherwise the move, with the ponder field
taken from the token after the first `ponder` token when that token occurs. -/
def parseBestMoveLine (line : String) : Option BestMove :=
  if startsWithStr line "bestmove" = false then none
  else
    match (jsSplitWs line)[1]? with
    | none => none
    | some bestmove =>
      if bestmove = "" then none
      else
        some { bestmove := bestmove
             , ponder :=
                if "ponder" ∈ jsSplitWs line then
                  (jsSplitWs line)[(jsSplitWs line).indexOf "ponder" + 1]?
                else none }

/-- Claim C10: `parseBestMoveLine` returns `none` for every line that does not
begin with `bestmove`, and also when the marker has no following move token
(in particular for the line `"bestmove"` itself); when it returns a result,
the ponder field is the token immediately following the first `ponder` token
when that token is present, and absent otherwise. -/
theorem C10_parseBestMoveLine :
    (∀ line : String, startsWithStr line "bestmove" = false → parseBestMoveLine line = none) ∧
    (∀ line : String, jsSplitWs line = ["bestmove"] → parseBestMoveLine line = none) ∧
    parseBestMoveLine "bestmove" = none ∧
    (∀ line : String, ∀ r : BestMove, parseBestMoveLine line = some r →
      ("ponder" ∈ jsSplitWs line →
        r.ponder = (jsSplitWs line)[(jsSplitWs line).indexOf "ponder" + 1]?) ∧
      ("ponder" ∉ jsSplitWs line → r.ponder = none)) := by
  refine ⟨?_, ?_, by decide, ?_⟩
  · intro line h
    simp [parseBestMoveLine, h]
  · intro line htok
    by_cases hs : startsWithStr line "bestmove" = false
    · simp [parseBestMoveLine, hs]
    · simp [parseBestMoveLine, hs, htok]
  · intro line r h
    unfold parseBestMoveLine at h
    by_cases hs : startsWithStr line "bestmove" = false
    · rw [if_pos hs] at h
      exact Option.noConfusion h
    · rw [if_neg hs] at h
      cases htok : (jsSplitWs line)[1]? with
      | none =>
        rw [htok] at h
        exact Option.noConfusion h
      | some b =>
        rw [htok] at h
        dsimp only at h
        by_cases hb : b = ""
        · rw [if_pos hb] at h
          exact Option.noConfusion h
        · rw [if_neg hb] at h
          have hr := Option.some.inj h
          constructor
          · intro hp
            simp [← hr, hp]
          · intro hp
            simp [← hr, hp]

theorem C10_parseBestMoveLine_witness :
    parseBestMoveLine "info string hello" = none ∧
    parseBestMoveLine "bestmove  " = none ∧
    BestMove.ponder ⟨"a1b2", some "c3d4"⟩ =
      (jsSplitWs "bestmove a1b2 ponder c3d4")[(jsSplitWs "bestmove a1b2 ponder c3d4").indexOf "ponder" + 1]? := by
  refine ⟨C10_parseBestMoveLine.1 "info string hello" (by decide),
          C10_parseBestMoveLine.2.1 "bestmove  " (by decide),
          (C10_parseBestMoveLine.2.2.2 "bestmove a1b2 ponder c3d4" ⟨"a1b2", some "c3d4"⟩
            (by decide)).1 (by decide)⟩

/-! ### Engine pool (`enginePool.ts`) -/

/-- A pool slot: `WorkerWrapper` without the opaque engine handle. -/
structure PoolSlot where
  id : Nat
  allocated : Bool
deriving DecidableEq, Repr

/-- Pool state: the slot array and the FIFO wait queue.  Queue entries
(resolve/reject pairs in the source) are modelled as waiter tokens. -/
structure PoolState where
  workers : List PoolSlot
  queue : List Nat
deriving DecidableEq, Repr

/-- Embedding of `getIdleWorker`: the first slot whose `allocated` is false. -/
def getIdleWorker (workers : List PoolSlot) : Option PoolSlot :=
  workers.find? (fun w => !w.allocated)

/-- Setting the `allocated` flag of the slot with the given id (in-place
mutation of the found wrapper in the source; slot ids are distinct). -/
def markAllocated (workers : List PoolSlot) (i : Nat) (b : Bool) : List PoolSlot :=
  workers.map (fun w => if w.id = i then { w with allocated := b } else w)

/-- Outcome of an `acquire` call: an immediately granted slot id, or the
caller was appended to the wait queue. -/
inductive AcquireResult where
  | granted (i : Nat)
  | queued
deriving DecidableEq, Repr

/-- Embedding of `acquire`: grant the first idle slot, marking it allocated;
otherwise push the caller onto the wait queue. -/
def acquire (st : PoolState) (waiter : Nat) : PoolState × AcquireResult :=
  match getIdleWorker st.workers with
  | some idle =>
    ({ st with workers := markAllocated st.workers idle.id true }, .granted idle.id)
  | none =>
    ({ st with queue := st.queue ++ [waiter] }, .queued)

/-- Embedding of `release`: unknown ids are ignored; otherwise the slot is
marked free and, when the wait queue is non-empty, immediately re-allocated
to the head of the queue (returned as the granted waiter token). -/
def release (st : PoolState) (i : Nat) : PoolState × Option Nat :=
  match st.workers.find? (fun w => w.id == i) with
  | none => (st, none)
  | some _ =>
    match st.queue with
    | [] => ({ workers := markAllocated st.workers i false, queue := [] }, none)
    | next :: rest =>
      ({ workers := markAllocated (markAllocated st.workers i false) i true
       , queue := rest }, some next)

/-- A sequence of `release` calls, collecting the waiter tokens granted. -/
def runReleases (st : PoolState) : List Nat → PoolState × List Nat
  | [] => (st, [])
  | i :: rest =>
    let this := release st i
    let later := runReleases this.1 rest
    (later.1, this.2.toList ++ later.2)

theorem markAllocated_ids (ws : List PoolSlot) (i : Nat) (b : Bool) :
    (markAllocated ws i b).map PoolSlot.id = ws.map PoolSlot.id := by
  induction ws with
  | nil => rfl
  | cons w ws ih =>
    simp only [markAllocated, List.map_cons] at ih ⊢
    refine congrArg₂ List.cons ?_ ih
    split <;> rfl

theorem exists_id_markAllocated (ws : List PoolSlot) (i j : Nat) (b : Bool) :
    (∃ w ∈ markAllocated ws i b, w.id = j) ↔ ∃ w ∈ ws, w.id = j := by
  rw [← List.mem_map, ← List.mem_map, markAllocated_ids]

theorem markAllocated_true_of_id (ws : List PoolSlot) (i : Nat) :
    ∀ w ∈ markAllocated ws i true, w.id = i → w.allocated = true := by
  intro w hw hid
  simp only [markAllocated, List.mem_map] at hw
  obtain ⟨w0, hw0, rfl⟩ := hw
  split_ifs at hid ⊢ with h0
  · rfl
  · exact absurd hid h0

/-- Claim C6: with an unallocated slot, `acquire` immediately grants the first
idle slot, marking it allocated, leaving the queue untouched; with no idle
slot it appends the caller to the wait queue; `release` of a valid slot id
with a non-empty queue grants the released slot to the queue head, and in the
resulting state the slot's `allocated` flag is true (the handoff never leaves
it observably free); consecutive releases grant the queued waiters in exactly
their arrival (FIFO) order. -/
theorem C6_pool_fifo :
    (∀ st : PoolState, ∀ waiter : Nat, ∀ idle : PoolSlot,
      getIdleWorker st.workers = some idle →
      idle ∈ st.workers ∧ idle.allocated = false ∧
      acquire st waiter =
        ({ workers := markAllocated st.workers idle.id true, queue := st.queue },
          .granted idle.id) ∧
      ∀ w ∈ markAllocated st.workers idle.id true, w.id = idle.id → w.allocated = true) ∧
    (∀ st : PoolState, ∀ waiter : Nat, getIdleWorker st.workers = none →
      acquire st waiter = ({ workers := st.workers, queue := st.queue ++ [waiter] }, .queued)) ∧
    (∀ st : PoolState, ∀ i next : Nat, ∀ rest : List Nat, st.queue = next :: rest →
      (st.workers.find? (fun w => w.id == i)).isSome = true →
      (release st i).2 = some next ∧ (release st i).1.queue = rest ∧
      ∀ w ∈ (release st i).1.workers, w.id = i → w.allocated = true) ∧
    (∀ st : PoolState, ∀ ids : List Nat,
      (∀ i ∈ ids, ∃ w ∈ st.workers, w.id = i) → ids.length ≤ st.queue.length →
      (runReleases st ids).2 = st.queue.take ids.length) := by
  refine ⟨?_, ?_, ?_, ?_⟩
  · intro st waiter idle h
    refine ⟨List.mem_of_find?_eq_some h, ?_, ?_, markAllocated_true_of_id _ _⟩
    · have := List.find?_some h
      simpa using this
    · simp [acquire, h]
  · intro st waiter h
    simp [acquire, h]
  · intro st i next rest hq hf
    obtain ⟨wf, hwf⟩ := Option.isSome_iff_exists.mp hf
    simp only [release, hwf, hq]
    exact ⟨trivial, trivial, markAllocated_true_of_id _ _⟩
  · intro st ids
    induction ids generalizing st with
    | nil => intro _ _; simp [runReleases]
    | cons i rest ih =>
      intro hmem hlen
      obtain ⟨w0, hw0, hid⟩ := hmem i (List.mem_cons_self i rest)
      have hf : (st.workers.find? (fun w => w.id == i)).isSome = true := by
        rw [List.find?_isSome]
        exact ⟨w0, hw0, by simpa using hid⟩
      obtain ⟨wf, hwf⟩ := Option.isSome_iff_exists.mp hf
      cases hq : st.queue with
      | nil =>
        rw [hq] at hlen
        simp at hlen
      | cons q0 qrest =>
        have hrel : release st i =
            ({ workers := markAllocated (markAllocated st.workers i false) i true
             , queue := qrest }, some q0) := by
          simp [release, hwf, hq]
        simp only [runReleases, hrel, Option.toList_some]
        rw [ih]
        · simp [hq]
        · intro j hj
          refine (exists_id_markAllocated _ _ _ _).mpr
            ((exists_id_markAllocated _ _ _ _).mpr ?_)
          exact hmem j (List.mem_cons_of_mem _ hj)
        · rw [hq] at hlen
          simpa using hlen

theorem C6_pool_fifo_witness :
    acquire ⟨[⟨0, true⟩, ⟨1, false⟩], []⟩ 7 =
      ({ workers := [⟨0, true⟩, ⟨1, true⟩], queue := [] }, .granted 1) ∧
    acquire ⟨[⟨0, true⟩], []⟩ 7 = ({ workers := [⟨0, true⟩], queue := [7] }, .queued) ∧
    (release ⟨[⟨0, true⟩], [5, 6]⟩ 0).2 = some 5 ∧
    (runReleases ⟨[⟨0, true⟩], [5, 6]⟩ [0, 0]).2 = [5, 6] := by
  refine ⟨(C6_pool_fifo.1 ⟨[⟨0, true⟩, ⟨1, false⟩], []⟩ 7 ⟨1, false⟩ rfl).2.2.1,
          C6_pool_fifo.2.1 ⟨[⟨0, true⟩], []⟩ 7 rfl,
          (C6_pool_fifo.2.2.1 ⟨[⟨0, true⟩], [5, 6]⟩ 0 5 [6] rfl rfl).1,
          C6_pool_fifo.2.2.2 ⟨[⟨0, true⟩], [5, 6]⟩ [0, 0] (by decide) (by decide)⟩

/-- Embedding of the pool-size computation in `init`:
`min(poolSize ?? max(1, floor(cpuCount / 2)), 8)`. -/
def poolSize (cfgPoolSize : Option Nat) (cpuCount : Nat) : Nat :=
  min (cfgPoolSize.getD (max 1 (cpuCount / 2))) 8

/-- Embedding of the `init` loop: pushes `{ id: i, allocated: false }` for
`i = 0 .. size-1`. -/
def initSlots (size : Nat) : List PoolSlot :=
  (List.range size).map (fun i => { id := i, allocated := false })

/-- Claim C8: for any CPU count `c ≥ 1`, pool init creates `min s 8` slots
when an explicit size `s` is configured and `min (max 1 (c / 2)) 8` slots
otherwise, with slot ids numbered consecutively from 0. -/
theorem C8_pool_init (c s : Nat) (cfg : Option Nat) (_hc : 1 ≤ c) :
    (initSlots (poolSize (some s) c)).length = min s 8 ∧
    (initSlots (poolSize none c)).length = min (max 1 (c / 2)) 8 ∧
    (initSlots (poolSize cfg c)).map PoolSlot.id = List.range (poolSize cfg c) := by
  refine ⟨?_, ?_, ?_⟩
  · simp [initSlots, poolSize]
  · simp [initSlots, poolSize]
  · rw [initSlots, List.map_map,
      show (PoolSlot.id ∘ fun i => ({ id := i, allocated := false } : PoolSlot)) = id from rfl,
      List.map_id]

theorem C8_pool_init_witness :
    (initSlots (poolSize (some 3) 4)).length = min 3 8 ∧
    (initSlots (poolSize none 4)).length = min (max 1 (4 / 2)) 8 ∧
    (initSlots (poolSize none 4)).map PoolSlot.id = List.range (poolSize none 4) := by
  obtain ⟨h1, h2, h3⟩ := C8_pool_init 4 3 none (by norm_num)
  exact ⟨h1, h2, h3⟩

/-- Claim C9: releasing a slot id that belongs to no pool slot is a silent
no-op — no error, no slot flag change, no waiter resolved. -/
theorem C9_release_unknown (st : PoolState) (i : Nat)
    (h : ∀ w ∈ st.workers, w.id ≠ i) :
    release st i = (st, none) := by
  have hf : st.workers.find? (fun w => w.id == i) = none := by
    rw [List.find?_eq_none]
    intro w hw
    simpa using h w hw
  simp [release, hf]

theorem C9_release_unknown_witness :
    release ⟨[⟨0, true⟩, ⟨1, false⟩], [9]⟩ 5 = (⟨[⟨0, true⟩, ⟨1, false⟩], [9]⟩, none) :=
  C9_release_unknown ⟨[⟨0, true⟩, ⟨1, false⟩], [9]⟩ 5 (by decide)

/-! ### The per-slot exclusivity chain of `runExclusive` -/

/-- Error kinds of the service (§7 of the spec, as raised by the sources). -/
inductive Err where
  | gameAlreadyExists
  | invalidFen
  | gameNotFound
  | illegalMove
  | illegalHistory
  | workerNotFound
  | readyTimeout
  | searchTimeout
  | aborted
  | engineFailure
deriving DecidableEq, Repr

/-- One queued operation passing through `runExclusive`'s per-slot promise
chain.  The chain state is the settled state of `locks.get(id)`: `ok` if the
previous operation resolved its lock, `error e` if some operation called
`rejectLock(e)` (which rejects the whole `previous.then(() => nextLock)`
chain).  A queued operation first awaits the chain: if the chain is rejected,
the `await previous` throws, the operation's function is never invoked
(executed = false), and the caller receives the chain's error; otherwise the
function runs and its own outcome is delivered, and a failure rejects the
chain for everything queued behind it. -/
def runExclusiveStep (chain : Except Err Unit) (op : Except Err Nat) :
    Except Err Unit × Bool × Except Err Nat :=
  match chain with
  | .error e => (.error e, false, .error e)
  | .ok _ =>
    match op with
    | .ok v => (.ok (), true, .ok v)
    | .error e => (.error e, true, .error e)

/-- Runs a queue of operations through the chain, returning for each one
whether its function was executed and the outcome delivered to its caller. -/
def runExclusiveChain (chain : Except Err Unit) :
    List (Except Err Nat) → List (Bool × Except Err Nat)
  | [] => []
  | op :: rest =>
    let step := runExclusiveStep chain op
    (step.2.1, step.2.2) :: runExclusiveChain step.1 rest

/-- Claim C1 is violated by the code (code bug): `runExclusive` calls
`rejectLock(error)` on failure, so the per-slot chain itself is rejected.
At the failing input — a failing operation followed by one that would
succeed with 42 — the second queued operation is never executed and its
caller receives the first operation's error; in general every operation
queued behind a failure delivers that failure's error without executing. -/
theorem C1_chain_poisoned :
    runExclusiveChain (.ok ()) [.error .searchTimeout, .ok 42] =
      [(true, .error .searchTimeout), (false, .error .searchTimeout)] ∧
    ∀ (e : Err) (ops : List (Except Err Nat)),
      runExclusiveChain (.error e) ops = ops.map (fun _ => (false, .error e)) := by
  refine ⟨rfl, ?_⟩
  intro e ops
  induction ops with
  | nil => rfl
  | cons op rest ih => simp [runExclusiveChain, runExclusiveStep, ih]

/-! ### Engine worker (`engineWorker.ts`) -/

/-- The driver state relevant to multi-PV diffing: the tracked
`currentMultiPv` value. -/
structure WorkerState where
  currentMultiPv : Nat
deriving DecidableEq, Repr

/-- Embedding of `configure({ MultiPV: value })`: the tracked value is
assigned before the `setoption`/`isready` round-trip, whose acknowledgement
may time out (`readyOk = false`). -/
def configureMultiPv (st : WorkerState) (value : Nat) (readyOk : Bool) :
    WorkerState × Except Err Unit :=
  ({ st with currentMultiPv := value },
   if readyOk then .ok () else .error .readyTimeout)

/-- Embedding of `analyze` restricted to its multi-PV bookkeeping.  `A` is
the type of the search result; the environment supplies whether the abort
signal was already set on entry, whether the initial reconfigure's readiness
ack arrives, the search outcome (best-move result, `searchTimeout`, or
`aborted`), and whether the restoring reconfigure's readiness ack arrives.
The restore runs in a `finally` block, so it runs for both search outcomes,
and its own failure supersedes the search outcome — but it is only installed
after the initial reconfigure has succeeded. -/
def analyze (A : Type) (st : WorkerState) (multipv : Option Nat)
    (alreadyAborted cfgReady restoreReady : Bool)
    (searchOutcome : Except Err A) : WorkerState × Except Err A :=
  if alreadyAborted then (st, .error .aborted)
  else
    let previousMultiPv := st.currentMultiPv
    match multipv with
    | some m =>
      if m ≠ st.currentMultiPv then
        let cfg := configureMultiPv st m cfgReady
        match cfg.2 with
        | .error e => (cfg.1, .error e)
        | .ok _ =>
          let restore := configureMultiPv cfg.1 previousMultiPv restoreReady
          match restore.2 with
          | .error e2 => (restore.1, .error e2)
          | .ok _ => (restore.1, searchOutcome)
      else (st, searchOutcome)
    | none => (st, searchOutcome)

/-- Claim C3 counterexample: when the initial reconfigure to the requested
multi-PV fails (its readiness ack times out), `analyze` rejects before the
restoring cleanup is installed, and the driver's tracked multi-PV is left at
the requested value, not the previous one. -/
theorem C3_counterexample :
    (analyze Unit ⟨1⟩ (some 2) false false true (.ok ())).1.currentMultiPv ≠ 1 ∧
    (analyze Unit ⟨1⟩ (some 2) false false true (.ok ())).2 = .error .readyTimeout := by
  exact ⟨by decide, rfl⟩

/-- Claim C3 (amended): for a request whose multi-PV differs from the
driver's current value, if the initial reconfigure succeeds then after the
`analyze` call the tracked multi-PV equals its prior value, whether the
search resolves or rejects (including a search timeout) and whether or not
the restoring reconfigure's own readiness ack succeeds; an abort that is
already set on entry also leaves the tracked value unchanged. -/
theorem C3_multipv_restored (A : Type) (st : WorkerState) (m : Nat)
    (restoreReady : Bool) (searchOutcome : Except Err A)
    (hm : m ≠ st.currentMultiPv) :
    (analyze A st (some m) false true restoreReady searchOutcome).1.currentMultiPv
      = st.currentMultiPv ∧
    ∀ cfgReady : Bool,
      (analyze A st (some m) true cfgReady restoreReady searchOutcome).1.currentMultiPv
        = st.currentMultiPv := by
  constructor
  · cases restoreReady <;> simp [analyze, configureMultiPv, hm]
  · intro cfgReady
    rfl

theorem C3_multipv_restored_witness :
    (analyze Unit ⟨1⟩ (some 2) false true true (.error .searchTimeout)).1.currentMultiPv = 1 :=
  (C3_multipv_restored Unit ⟨1⟩ 2 true (.error .searchTimeout) (by decide)).1

/-! ### Game session registry (`gameManager.ts`) -/

/-- The argument object `uciToMove` builds for `chess.move`. -/
structure MoveInput where
  fromSq : String
  toSq : String
  promotion : Option String
deriving DecidableEq, Repr

/-- Embedding of `uciToMove`: `from = uci.slice(0, 2)`,
`to = uci.slice(2, 4)`, `promotion = uci.slice(4)` when longer than 4. -/
def uciToMove (uci : String) : MoveInput :=
  { fromSq := String.mk (uci.data.take 2)
  , toSq := String.mk ((uci.data.drop 2).take 2)
  , promotion := if uci.data.length > 4 then some (String.mk (uci.data.drop 4)) else none }

/-- The external rules-validation collaborator (chess.js), per §6 of the
spec: a position type with the standard start, FEN parsing (`none` when the
constructor throws on an invalid FEN), and move application (`none` when the
move is illegal). -/
structure Rules (Pos : Type) where
  startPos : Pos
  fromFen : String → Option Pos
  move : Pos → MoveInput → Option Pos

/-- A registered game session. -/
structure GameState where
  gameId : String
  workerId : Nat
  moves : List String
  initialFen : Option String
deriving DecidableEq, Repr

/-- Lookup in the registry's `Map<string, GameState>`, modelled as an
association list in insertion order. -/
def mapLookup (games : List (String × GameState)) (k : String) : Option GameState :=
  (games.find? (fun p => p.1 == k)).map (fun p => p.2)

/-- `Map.set`: replace the value at an existing key, else append. -/
def mapInsert (games : List (String × GameState)) (k : String) (v : GameState) :
    List (String × GameState) :=
  if (games.find? (fun p => p.1 == k)).isSome then
    games.map (fun p => if p.1 == k then (k, v) else p)
  else games ++ [(k, v)]

/-- Replays a move list through the rules collaborator, failing on the first
move it rejects (`Illegal move in history`). -/
def replayMoves {Pos : Type} (rules : Rules Pos) : Pos → List String → Except Err Pos
  | p, [] => .ok p
  | p, mv :: rest =>
    match rules.move p (uciToMove mv) with
    | some p2 => replayMoves rules p2 rest
    | none => .error .illegalHistory

/-- Embedding of `applyMovesToChess`: `initialFen ? new Chess(initialFen) :
new Chess()` (JS truthiness: an empty string also means the standard start;
a FEN the collaborator rejects raises), then replay the stored moves. -/
def applyMovesToChess {Pos : Type} (rules : Rules Pos)
    (initialFen : Option String) (moves : List String) : Except Err Pos :=
  match initialFen with
  | some f =>
    if f = "" then replayMoves rules rules.startPos moves
    else
      match rules.fromFen f with
      | some p => replayMoves rules p moves
      | none => .error .invalidFen
  | none => replayMoves rules rules.startPos moves

/-- Embedding of `addMove`: look the session up, replay its stored history,
attempt the new move through the rules collaborator, and only on success
append it.  The registry is returned alongside the outcome so frame effects
are visible. -/
def addMove {Pos : Type} (rules : Rules Pos) (games : List (String × GameState))
    (gameId uciMove : String) : List (String × GameState) × Except Err Unit :=
  match mapLookup games gameId with
  | none => (games, .error .gameNotFound)
  | some state =>
    match applyMovesToChess rules state.initialFen state.moves with
    | .error e => (games, .error e)
    | .ok chessPos =>
      match rules.move chessPos (uciToMove uciMove) with
      | none => (games, .error .illegalMove)
      | some _ =>
        (mapInsert games gameId { state with moves := state.moves ++ [uciMove] }, .ok ())

/-- Claim C4: when the rules engine rejects the candidate move from the
position obtained by replaying the session's stored moves, `addMove` fails
with the illegal-move error and the registry is unchanged; and whenever
`addMove` succeeds, the new registry is exactly the old one with the move
appended to that session's history, the rules engine having accepted it. -/
theorem C4_addMove (Pos : Type) (rules : Rules Pos)
    (games : List (String × GameState)) (gameId uci : String) :
    (∀ state pos, mapLookup games gameId = some state →
      applyMovesToChess rules state.initialFen state.moves = .ok pos →
      rules.move pos (uciToMove uci) = none →
      addMove rules games gameId uci = (games, .error .illegalMove)) ∧
    (∀ out, addMove rules games gameId uci = (out, .ok ()) →
      ∃ state pos pos2, mapLookup games gameId = some state ∧
        applyMovesToChess rules state.initialFen state.moves = .ok pos ∧
        rules.move pos (uciToMove uci) = some pos2 ∧
        out = mapInsert games gameId { state with moves := state.moves ++ [uci] }) := by
  constructor
  · intro state pos h1 h2 h3
    simp [addMove, h1, h2, h3]
  · intro out h
    unfold addMove at h
    cases hl : mapLookup games gameId with
    | none =>
      rw [hl] at h
      simp at h
    | some state =>
      rw [hl] at h
      dsimp only at h
      cases ha : applyMovesToChess rules state.initialFen state.moves with
      | error e =>
        rw [ha] at h
        simp at h
      | ok pos =>
        rw [ha] at h
        dsimp only at h
        cases hm : rules.move pos (uciToMove uci) with
        | none =>
          rw [hm] at h
          simp at h
        | some pos2 =>
          rw [hm] at h
          dsimp only at h
          rw [Prod.mk.injEq] at h
          exact ⟨state, pos, pos2, rfl, ha, hm, h.1.symm⟩

/-- A fake rules collaborator over `Nat` positions, used only to exercise the
registry theorems on concrete inputs (the spec's own testable-property list
suggests exactly such a fake): every FEN parses to the start position and a
move is legal iff its from-square is `"a2"`. -/
def fakeRules : Rules Nat :=
  { startPos := 0
  , fromFen := fun _ => some 0
  , move := fun p m => if m.fromSq = "a2" then some (p + 1) else none }

theorem C4_addMove_witness :
    addMove fakeRules [("g", ⟨"g", 0, [], none⟩)] "g" "zz9z" =
      ([("g", ⟨"g", 0, [], none⟩)], .error .illegalMove) :=
  (C4_addMove Nat fakeRules [("g", ⟨"g", 0, [], none⟩)] "g" "zz9z").1
    ⟨"g", 0, [], none⟩ 0 rfl rfl rfl

/-- Embedding of `validateFen` as called by `startGame`: validation is
skipped for an absent or empty (falsy) FEN, otherwise the FEN must parse. -/
def fenOk {Pos : Type} (rules : Rules Pos) : Option String → Bool
  | none => true
  | some f => if f = "" then true else (rules.fromFen f).isSome

/-- Outcome of `startGame`: either completed with the new pool and registry
states and a result, or parked in the pool's wait queue awaiting `acquire`. -/
inductive StartOutcome where
  | done (pool : PoolState) (games : List (String × GameState)) (res : Except Err GameState)
  | blockedOnAcquire (pool : PoolState) (games : List (String × GameState))

/-- Embedding of `startGame`: duplicate-id check, FEN validation, slot
acquisition, `newGame` on the acquired slot (its outcome supplied as a
function of the slot id), then session registration.  On `newGame` failure
the acquired slot is released before the error propagates. -/
def startGame {Pos : Type} (rules : Rules Pos) (pool : PoolState)
    (games : List (String × GameState)) (gameId : String)
    (initialFen : Option String) (waiter : Nat)
    (newGameOutcome : Nat → Except Err Unit) : StartOutcome :=
  if (mapLookup games gameId).isSome then .done pool games (.error .gameAlreadyExists)
  else if fenOk rules initialFen = false then .done pool games (.error .invalidFen)
  else
    let acq := acquire pool waiter
    match acq.2 with
    | .queued => .blockedOnAcquire acq.1 games
    | .granted wid =>
      match newGameOutcome wid with
      | .error e => .done (release acq.1 wid).1 games (.error e)
      | .ok _ =>
        let state : GameState :=
          { gameId := gameId, workerId := wid, moves := [], initialFen := initialFen }
        .done acq.1 (mapInsert games gameId state) (.ok state)

theorem markAllocated_markAllocated (ws : List PoolSlot) (i : Nat) (b b2 : Bool) :
    markAllocated (markAllocated ws i b) i b2 = markAllocated ws i b2 := by
  induction ws with
  | nil => rfl
  | cons w ws ih =>
    simp only [markAllocated, List.map_cons] at ih ⊢
    refine congrArg₂ List.cons ?_ ih
    by_cases h : w.id = i <;> simp [h]

theorem markAllocated_eq_self (ws : List PoolSlot) (i : Nat)
    (h : ∀ w ∈ ws, w.id = i → w.allocated = false) :
    markAllocated ws i false = ws := by
  induction ws with
  | nil => rfl
  | cons w ws ih =>
    simp only [markAllocated, List.map_cons] at ih ⊢
    refine congrArg₂ List.cons ?_
      (ih fun w2 hw2 => h w2 (List.mem_cons_of_mem _ hw2))
    by_cases hid : w.id = i
    · obtain ⟨wid, walloc⟩ := w
      have := h ⟨wid, walloc⟩ (List.mem_cons_self _ _) hid
      simp at this
      simp [hid, this]
    · simp [hid]

/-- Claim C7: if `newGame` on the freshly acquired slot fails during
`startGame`, the slot is released back to the pool before the error
propagates: the call returns the original pool state (same free-slot count)
and the original registry (no session registered), with that error. -/
theorem C7_startGame_cleanup (Pos : Type) (rules : Rules Pos) (pool : PoolState)
    (games : List (String × GameState)) (gameId : String)
    (initialFen : Option String) (waiter : Nat)
    (newGameOutcome : Nat → Except Err Unit) (idle : PoolSlot) (e : Err)
    (hng : mapLookup games gameId = none)
    (hfen : fenOk rules initialFen = true)
    (hidle : getIdleWorker pool.workers = some idle)
    (hq : pool.queue = [])
    (hnodup : (pool.workers.map PoolSlot.id).Nodup)
    (hfail : newGameOutcome idle.id = .error e) :
    startGame rules pool games gameId initialFen waiter newGameOutcome =
      .done pool games (.error e) := by
  obtain ⟨ws, q⟩ := pool
  simp only at hidle hq hnodup
  subst hq
  have hmem : idle ∈ ws := List.mem_of_find?_eq_some hidle
  have halloc : idle.allocated = false := by simpa using List.find?_some hidle
  have hfind : ∃ wf, (markAllocated ws idle.id true).find? (fun w => w.id == idle.id) = some wf := by
    apply Option.isSome_iff_exists.mp
    rw [List.find?_isSome]
    obtain ⟨w1, hw1, hid1⟩ :=
      (exists_id_markAllocated ws idle.id idle.id true).mpr ⟨idle, hmem, rfl⟩
    exact ⟨w1, hw1, by simpa using hid1⟩
  obtain ⟨wf, hwf⟩ := hfind
  have hclean : markAllocated (markAllocated ws idle.id true) idle.id false = ws := by
    rw [markAllocated_markAllocated]
    apply markAllocated_eq_self
    intro w hw hwid
    have hwidle : w = idle :=
      List.inj_on_of_nodup_map hnodup hw hmem (by rw [hwid])
    rw [hwidle, halloc]
  rw [startGame, hng]
  simp only [Option.isSome_none, Bool.false_eq_true, if_false, hfen]
  rw [if_neg (by simp)]
  have hacq : acquire ⟨ws, []⟩ waiter =
      ({ workers := markAllocated ws idle.id true, queue := [] }, .granted idle.id) := by
    simp [acquire, getIdleWorker] at hidle ⊢
    rw [hidle]
  rw [hacq]
  dsimp only
  rw [hfail]
  dsimp only
  rw [release]
  dsimp only
  rw [hwf]
  dsimp only
  rw [hclean]

theorem C7_startGame_cleanup_witness :
    startGame fakeRules ⟨[⟨0, false⟩], []⟩ [] "g" none 9 (fun _ => .error .readyTimeout) =
      .done ⟨[⟨0, false⟩], []⟩ [] (.error .readyTimeout) :=
  C7_startGame_cleanup Nat fakeRules ⟨[⟨0, false⟩], []⟩ [] "g" none 9
    (fun _ => .error .readyTimeout) ⟨0, false⟩ .readyTimeout
    rfl rfl rfl rfl (by decide) rfl

end ChessVermouth
